import Mathlib

/-!
Verification of the Verse lexer (`verse_lexer/verse.py`).

The lexer is a Pygments `RegexLexer`: an ordered rule table keyed by lexical
state, scanned by the host driver (first matching rule wins, the matched span
is emitted as one or more tokens, the state stack is pushed/popped, and any
unmatched character falls back to a single-character token).  We embed the
rule table shallowly: each regex rule becomes a function computing the lengths
of the sub-spans it would emit and the state transition it performs; the
driver slices the input accordingly.
-/

/-- The token kinds the lexer assigns (the subset of the host taxonomy used). -/
inductive Tok where
  | whitespace
  | commentSingle
  | commentMultiline
  | keywordNamespace
  | keyword
  | keywordDeclaration
  | keywordType
  | keywordReserved
  | keywordConstant
  | operatorWord
  | operator
  | nameClass
  | nameFunction
  | nameDecorator
  | nameNamespace
  | nameBuiltinPseudo
  | name
  | numberBin
  | numberOct
  | numberHex
  | numberFloat
  | numberInteger
  | stringDouble
  | stringSingle
  | stringInterpol
  | punctuation
  | error
deriving DecidableEq, Repr

/-- The lexical states of the rule table (`root` is the implicit initial state). -/
inductive LState where
  | root
  | multilineComment
  | usingBlock
  | stringDouble
  | interpolation
deriving DecidableEq, Repr

/-- State transitions a rule may perform: none, push a named state,
push the current state again (`#push`), or pop one level (`#pop`). -/
inductive STrans where
  | stay
  | push (s : LState)
  | pushSame
  | pop
deriving DecidableEq, Repr

/-- Result of one rule firing: the lengths of the sub-spans emitted (with their
token kinds, zero-length sub-spans are dropped like empty `bygroups` groups)
and the state transition. -/
structure MRes where
  pieces : List (Tok × Nat)
  trans : STrans
deriving DecidableEq, Repr

/-- Total length of input consumed by a rule firing. -/
def pieceLen (ps : List (Tok × Nat)) : Nat := (ps.map Prod.snd).sum

/-- The double quote character. -/
def dqc : Char := Char.ofNat 34

/-- The single quote character. -/
def sqc : Char := Char.ofNat 39

/-- The backslash character. -/
def bsc : Char := Char.ofNat 92

/-- The left brace character. -/
def lbc : Char := Char.ofNat 123

/-- The right brace character. -/
def rbc : Char := Char.ofNat 125

/-- Python `\s` on ASCII input: space, tab, newline, carriage return,
vertical tab, form feed. -/
def isPySpace (c : Char) : Bool :=
  c == ' ' || c == '\t' || c == '\n' || c == '\r' || c == Char.ofNat 11 || c == Char.ofNat 12

/-- Python `\w` on ASCII input: letters, digits, underscore. -/
def isWordCh (c : Char) : Bool := c.isAlphanum || c == '_'

/-- The class `[a-zA-Z_]` that starts identifiers. -/
def isIdentStartCh (c : Char) : Bool := c.isAlpha || c == '_'

/-- Length of the maximal prefix whose characters satisfy `p`
(a greedy character-class repetition). -/
def cw (p : Char → Bool) (l : List Char) : Nat := (l.takeWhile p).length

/-- The character at position `n`, when it exists (structural lookup). -/
def nthCh : List Char → Nat → Option Char
  | [], _ => none
  | c :: _, 0 => some c
  | _ :: t, n + 1 => nthCh t n

/-- Whether the character before the cursor is a word character. -/
def prevIsWord : Option Char → Bool
  | none => false
  | some c => isWordCh c

/-- Whether the character at the cursor is a word character. -/
def headIsWord : List Char → Bool
  | [] => false
  | c :: _ => isWordCh c

/-- Python `\b`: word-character-ness changes between the previous character
and the character at the cursor. -/
def bdry (prev : Option Char) (rest : List Char) : Bool :=
  prevIsWord prev != headIsWord rest

/-- Whether position `n` is a word-boundary on the right of a word
(end of input or a non-word character). -/
def wordEnd (rest : List Char) (n : Nat) : Bool :=
  match nthCh rest n with
  | none => true
  | some c => !isWordCh c

/-- `words(..., suffix := boundary)`: the first word of the list that is a
prefix of the input and is followed by a word boundary; returns its length. -/
def matchWords (ws : List (List Char)) (rest : List Char) : Option Nat :=
  ws.findSome? fun w => if w.isPrefixOf rest && wordEnd rest w.length then some w.length else none

/-- The specifier keywords that appear in angle brackets, in source order. -/
def specifierWords : List (List Char) :=
  ["abstract".toList, "computes".toList, "constructor".toList, "private".toList,
   "public".toList, "protected".toList, "final".toList, "decides".toList,
   "inline".toList, "native".toList, "override".toList, "suspends".toList,
   "transacts".toList, "internal".toList, "reads".toList, "writes".toList,
   "allocates".toList, "scoped".toList, "converges".toList, "castable".toList,
   "concrete".toList, "unique".toList, "final_super".toList, "open".toList,
   "closed".toList, "native_callable".toList, "module_scoped_var_weak_map_key".toList,
   "epic_internal".toList, "persistable".toList]

/-- Block-forming keywords. -/
def blockKeywords : List (List Char) :=
  ["if".toList, "then".toList, "else".toList, "for".toList, "block".toList,
   "loop".toList, "array".toList, "case".toList]

/-- Data structure keywords. -/
def dataStructureKeywords : List (List Char) :=
  ["module".toList, "interface".toList, "class".toList, "struct".toList, "enum".toList]

/-- Declaration keywords. -/
def declKeywords : List (List Char) :=
  ["var".toList, "set".toList, "using".toList]

/-- Type keywords. -/
def typeKeywords : List (List Char) :=
  ["int".toList, "float".toList, "string".toList, "logic".toList, "char".toList,
   "any".toList, "void".toList, "option".toList, "comparable".toList,
   "rational".toList, "tuple".toList, "type".toList]

/-- Reserved words. -/
def reservedWords : List (List Char) :=
  ["do".toList, "while".toList, "break".toList, "return".toList, "yield".toList,
   "spawn".toList, "sync".toList, "race".toList, "branch".toList, "Self".toList,
   "where".toList, "continue".toList]

/-- Word-form logical operators. -/
def logicalOperators : List (List Char) :=
  ["and".toList, "or".toList, "not".toList]

/-- Rule `\s+` → `Whitespace`. -/
def r_ws (rest : List Char) : Option MRes :=
  let n := cw isPySpace rest
  if n = 0 then none else some ⟨[(.whitespace, n)], .stay⟩

/-- Rule `#[^\n]*` → `Comment.Single`. -/
def r_lineComment (rest : List Char) : Option MRes :=
  match rest with
  | '#' :: t => some ⟨[(.commentSingle, 1 + cw (fun c => c != '\n') t)], .stay⟩
  | _ => none

/-- Rule `<#` → `Comment.Multiline`, push `multiline-comment`. -/
def r_mlcOpen (rest : List Char) : Option MRes :=
  if ['<', '#'].isPrefixOf rest then
    some ⟨[(.commentMultiline, 2)], .push .multilineComment⟩
  else none

/-- Rule `(using)(\s*)(\{)` → `bygroups(Keyword.Namespace, Whitespace, Punctuation)`,
push `using-block`. -/
def r_using (rest : List Char) : Option MRes :=
  if "using".toList.isPrefixOf rest then
    let t := rest.drop 5
    let n := cw isPySpace t
    if nthCh t n == some lbc then
      some ⟨[(.keywordNamespace, 5), (.whitespace, n), (.punctuation, 1)], .push .usingBlock⟩
    else none
  else none

/-- Rule `<(spec1|...|specN)(\{[^}]*\})?>` → `Name.Decorator`.  The alternation
is tried in declared order; a word whose continuation fails is abandoned and
the next word tried, exactly like regex backtracking. -/
def r_specifier (rest : List Char) : Option MRes :=
  match rest with
  | '<' :: t =>
    (specifierWords.findSome? fun w =>
      if w.isPrefixOf t then
        let u := t.drop w.length
        if nthCh u 0 == some '>' then some (w.length + 2)
        else if nthCh u 0 == some lbc then
          let m := cw (fun c => c != rbc) (u.drop 1)
          if nthCh u (1 + m) == some rbc && nthCh u (2 + m) == some '>' then
            some (w.length + m + 4)
          else none
        else none
      else none).map fun n => ⟨[(.nameDecorator, n)], .stay⟩
  | _ => none

/-- Rule `\b(module|interface|class|struct|enum)(\s+)([a-zA-Z_]\w*)` →
`bygroups(Keyword, Whitespace, Name.Class)`. -/
def r_dataStructure (prev : Option Char) (rest : List Char) : Option MRes :=
  dataStructureKeywords.findSome? fun w =>
    if w.isPrefixOf rest && bdry prev rest then
      let t := rest.drop w.length
      let n := cw isPySpace t
      if n = 0 then none
      else
        match t.drop n with
        | c :: u =>
          if isIdentStartCh c then
            some ⟨[(.keyword, w.length), (.whitespace, n),
                   (.nameClass, 1 + cw isWordCh u)], .stay⟩
          else none
        | [] => none
    else none

/-- Rule `\b([a-zA-Z_]\w*)(\s*)(<[^>]+>)?(\s*)(\()` →
`bygroups(Name.Function, Whitespace, Name.Decorator, Whitespace, Punctuation)`.
Greedy sub-matches are forced here (shrinking the identifier or a whitespace
run only exposes characters the next sub-pattern cannot match), so the match
is computed without search. -/
def r_funcDecl (prev : Option Char) (rest : List Char) : Option MRes :=
  match rest with
  | c :: t =>
    if isIdentStartCh c && bdry prev rest then
      let idn := 1 + cw isWordCh t
      let r1 := rest.drop idn
      let ws1 := cw isPySpace r1
      match r1.drop ws1 with
      | '<' :: v =>
        let m := cw (fun k => k != '>') v
        if 1 ≤ m && nthCh v m == some '>' then
          let r3 := r1.drop (ws1 + m + 2)
          let ws2 := cw isPySpace r3
          if nthCh r3 ws2 == some '(' then
            some ⟨[(.nameFunction, idn), (.whitespace, ws1), (.nameDecorator, m + 2),
                   (.whitespace, ws2), (.punctuation, 1)], .stay⟩
          else none
        else none
      | '(' :: _ =>
        some ⟨[(.nameFunction, idn), (.whitespace, ws1), (.punctuation, 1)], .stay⟩
      | _ => none
    else none
  | [] => none

/-- Keyword rule for block-forming keywords. -/
def r_kwBlock (rest : List Char) : Option MRes :=
  (matchWords blockKeywords rest).map fun n => ⟨[(.keyword, n)], .stay⟩

/-- Keyword rule for data structure keywords. -/
def r_kwData (rest : List Char) : Option MRes :=
  (matchWords dataStructureKeywords rest).map fun n => ⟨[(.keyword, n)], .stay⟩

/-- Keyword rule for declaration keywords. -/
def r_kwDecl (rest : List Char) : Option MRes :=
  (matchWords declKeywords rest).map fun n => ⟨[(.keywordDeclaration, n)], .stay⟩

/-- Keyword rule for type keywords. -/
def r_kwType (rest : List Char) : Option MRes :=
  (matchWords typeKeywords rest).map fun n => ⟨[(.keywordType, n)], .stay⟩

/-- Keyword rule for reserved words. -/
def r_kwReserved (rest : List Char) : Option MRes :=
  (matchWords reservedWords rest).map fun n => ⟨[(.keywordReserved, n)], .stay⟩

/-- Keyword rule for word-form logical operators. -/
def r_kwLogical (rest : List Char) : Option MRes :=
  (matchWords logicalOperators rest).map fun n => ⟨[(.operatorWord, n)], .stay⟩

/-- Rule `\b(true|false)\b` → `Keyword.Constant`. -/
def r_bool (prev : Option Char) (rest : List Char) : Option MRes :=
  (matchWords ["true".toList, "false".toList] rest).bind fun n =>
    if bdry prev rest then some ⟨[(.keywordConstant, n)], .stay⟩ else none

/-- The class `[01_]`. -/
def isBinCh (c : Char) : Bool := c == '0' || c == '1' || c == '_'

/-- The class `[0-7_]`. -/
def isOctCh (c : Char) : Bool := ('0' ≤ c && c ≤ '7') || c == '_'

/-- The class `[0-9a-fA-F_]`. -/
def isHexCh (c : Char) : Bool :=
  c.isDigit || ('a' ≤ c && c ≤ 'f') || ('A' ≤ c && c ≤ 'F') || c == '_'

/-- The class `[0-9_]`. -/
def isDigitUnd (c : Char) : Bool := c.isDigit || c == '_'

/-- Shared shape of the three radix rules `0b[01_]+`, `0o[0-7_]+`, `0x[0-9a-fA-F_]+`. -/
def r_radix (pre : Char) (p : Char → Bool) (kind : Tok) (rest : List Char) : Option MRes :=
  match rest with
  | '0' :: c :: t =>
    if c == pre then
      let n := cw p t
      if n = 0 then none else some ⟨[(kind, 2 + n)], .stay⟩
    else none
  | _ => none

/-- Rule `0b[01_]+` → `Number.Bin`. -/
def r_bin (rest : List Char) : Option MRes := r_radix 'b' isBinCh .numberBin rest

/-- Rule `0o[0-7_]+` → `Number.Oct`. -/
def r_oct (rest : List Char) : Option MRes := r_radix 'o' isOctCh .numberOct rest

/-- Rule `0x[0-9a-fA-F_]+` → `Number.Hex`. -/
def r_hex (rest : List Char) : Option MRes := r_radix 'x' isHexCh .numberHex rest

/-- Length matched by the optional exponent `([eE][+-]?[0-9]+)?`
(zero when the group does not participate). -/
def expLen (l : List Char) : Nat :=
  match l with
  | c :: t =>
    if c == 'e' || c == 'E' then
      let s := match nthCh t 0 with
        | some k => if k == '+' || k == '-' then 1 else 0
        | none => 0
      let e := cw Char.isDigit (t.drop s)
      if e = 0 then 0 else 1 + s + e
    else 0
  | [] => 0

/-- Rule `[0-9]+\.[0-9]*([eE][+-]?[0-9]+)?` → `Number.Float`. -/
def r_float1 (rest : List Char) : Option MRes :=
  let d := cw Char.isDigit rest
  if d = 0 then none
  else if nthCh rest d == some '.' then
    let f := cw Char.isDigit (rest.drop (d + 1))
    some ⟨[(.numberFloat, d + 1 + f + expLen (rest.drop (d + 1 + f)))], .stay⟩
  else none

/-- Rule `\.[0-9]+([eE][+-]?[0-9]+)?` → `Number.Float`. -/
def r_float2 (rest : List Char) : Option MRes :=
  match rest with
  | '.' :: t =>
    let f := cw Char.isDigit t
    if f = 0 then none
    else some ⟨[(.numberFloat, 1 + f + expLen (t.drop f))], .stay⟩
  | _ => none

/-- Rule `[0-9]+([eE][+-]?[0-9]+)` → `Number.Float` (mandatory exponent). -/
def r_float3 (rest : List Char) : Option MRes :=
  let d := cw Char.isDigit rest
  if d = 0 then none
  else
    let e := expLen (rest.drop d)
    if e = 0 then none else some ⟨[(.numberFloat, d + e)], .stay⟩

/-- Rule `[0-9][0-9_]*` → `Number.Integer`. -/
def r_int (rest : List Char) : Option MRes :=
  match rest with
  | c :: t =>
    if c.isDigit then some ⟨[(.numberInteger, 1 + cw isDigitUnd t)], .stay⟩ else none
  | [] => none

/-- Rule `"` → `String.Double`, push `string-double`. -/
def r_dq (rest : List Char) : Option MRes :=
  match rest with
  | c :: _ => if c == dqc then some ⟨[(Tok.stringDouble, 1)], .push .stringDouble⟩ else none
  | [] => none

/-- Scan of the single-quoted string body `(\\\\|\\[^\\]|[^'\\])*`: each
repetition element consumes a deterministic amount (two characters after a
backslash, one otherwise) until the closing quote; `none` when the input ends
before an unescaped closing quote.  Returns the body length. -/
def sqScan : List Char → Option Nat
  | [] => none
  | c :: t =>
    if c == sqc then some 0
    else if c == bsc then
      match t with
      | [] => none
      | _ :: u => (sqScan u).map (· + 2)
    else (sqScan t).map (· + 1)

/-- Rule `'(\\\\|\\[^\\]|[^'\\])*'` → `String.Single` (whole match, supports
backslash escapes, no state transition). -/
def r_sq (rest : List Char) : Option MRes :=
  match rest with
  | c :: t =>
    if c == sqc then (sqScan t).map fun n => ⟨[(.stringSingle, n + 2)], .stay⟩
    else none
  | [] => none

/-- Shared shape of the fixed two-character operator rules. -/
def r_lit2 (a b : Char) (rest : List Char) : Option MRes :=
  match rest with
  | c :: d :: _ => if c == a && d == b then some ⟨[(.operator, 2)], .stay⟩ else none
  | _ => none

/-- Rule `:=` → `Operator` (definition operator). -/
def r_defOp (rest : List Char) : Option MRes := r_lit2 ':' '=' rest

/-- Rule `=>` → `Operator` (lambda arrow). -/
def r_lamArrow (rest : List Char) : Option MRes := r_lit2 '=' '>' rest

/-- Rule `->` → `Operator` (for loop arrow). -/
def r_forArrow (rest : List Char) : Option MRes := r_lit2 '-' '>' rest

/-- Rule `\.\.` → `Operator` (range operator). -/
def r_range (rest : List Char) : Option MRes := r_lit2 '.' '.' rest

/-- Rule `[+\-*/]?=` → `Operator` (assignment operators; a lone `=` matches). -/
def r_assign (rest : List Char) : Option MRes :=
  match rest with
  | c :: t =>
    if (c == '+' || c == '-' || c == '*' || c == '/') && nthCh t 0 == some '=' then
      some ⟨[(.operator, 2)], .stay⟩
    else if c == '=' then some ⟨[(.operator, 1)], .stay⟩
    else none
  | [] => none

/-- Rule `==|!=|<=|>=|<|>` → `Operator` (comparison operators; two-character
alternatives are tried before the one-character ones). -/
def r_cmp (rest : List Char) : Option MRes :=
  match rest with
  | c :: t =>
    if (c == '=' || c == '!' || c == '<' || c == '>') && nthCh t 0 == some '=' then
      some ⟨[(.operator, 2)], .stay⟩
    else if c == '<' || c == '>' then some ⟨[(.operator, 1)], .stay⟩
    else none
  | [] => none

/-- Rule `[+\-*/%]` → `Operator` (arithmetic operators). -/
def r_arith (rest : List Char) : Option MRes :=
  match rest with
  | c :: _ =>
    if c == '+' || c == '-' || c == '*' || c == '/' || c == '%' then
      some ⟨[(.operator, 1)], .stay⟩
    else none
  | [] => none

/-- Rule `[?:]` → `Operator` (ternary and type annotation). -/
def r_ternary (rest : List Char) : Option MRes :=
  match rest with
  | c :: _ =>
    if c == '?' || c == ':' then some ⟨[(.operator, 1)], .stay⟩ else none
  | [] => none

/-- Rule `[{}\[\](),;.]` → `Punctuation`. -/
def r_punct (rest : List Char) : Option MRes :=
  match rest with
  | c :: _ =>
    if c == lbc || c == rbc || c == '[' || c == ']' || c == '(' || c == ')' ||
       c == ',' || c == ';' || c == '.' then
      some ⟨[(.punctuation, 1)], .stay⟩
    else none
  | [] => none

/-- Rule `\(([a-zA-Z_]\w*):\)` → `Name.Builtin.Pseudo` (qualified access;
note this rule is listed after the punctuation rule, which also matches `(`). -/
def r_super (rest : List Char) : Option MRes :=
  match rest with
  | c :: t =>
    if c == '(' then
      match t with
      | k :: u =>
        if isIdentStartCh k then
          if nthCh t (1 + cw isWordCh u) == some ':' && nthCh t (1 + cw isWordCh u + 1) == some ')' then
            some ⟨[(.nameBuiltinPseudo, 1 + cw isWordCh u + 3)], .stay⟩
          else none
        else none
      | [] => none
    else none
  | [] => none

/-- Rule `@[a-zA-Z_]\w*` → `Name.Decorator`. -/
def r_decorator (rest : List Char) : Option MRes :=
  match rest with
  | c :: t =>
    if c == '@' then
      match t with
      | k :: u =>
        if isIdentStartCh k then
          some ⟨[(.nameDecorator, 2 + cw isWordCh u)], .stay⟩
        else none
      | [] => none
    else none
  | [] => none

/-- Rule `[a-zA-Z_]\w*` → `Name` (catch-all identifier, listed last). -/
def r_ident (rest : List Char) : Option MRes :=
  match rest with
  | c :: t =>
    if isIdentStartCh c then some ⟨[(.name, 1 + cw isWordCh t)], .stay⟩ else none
  | [] => none

/-- First-match-wins combinator over a rule list: the second rule is consulted
only when the first does not match. -/
def pick (a : Option MRes) (f : Unit → Option MRes) : Option MRes :=
  match a with
  | some r => some r
  | none => f ()

/-- The `root` state: its rules in the declared source order, first match wins. -/
def matchRoot (prev : Option Char) (rest : List Char) : Option MRes :=
  pick (r_ws rest) fun _ =>
  pick (r_lineComment rest) fun _ =>
  pick (r_mlcOpen rest) fun _ =>
  pick (r_using rest) fun _ =>
  pick (r_specifier rest) fun _ =>
  pick (r_dataStructure prev rest) fun _ =>
  pick (r_funcDecl prev rest) fun _ =>
  pick (r_kwBlock rest) fun _ =>
  pick (r_kwData rest) fun _ =>
  pick (r_kwDecl rest) fun _ =>
  pick (r_kwType rest) fun _ =>
  pick (r_kwReserved rest) fun _ =>
  pick (r_kwLogical rest) fun _ =>
  pick (r_bool prev rest) fun _ =>
  pick (r_bin rest) fun _ =>
  pick (r_oct rest) fun _ =>
  pick (r_hex rest) fun _ =>
  pick (r_float1 rest) fun _ =>
  pick (r_float2 rest) fun _ =>
  pick (r_float3 rest) fun _ =>
  pick (r_int rest) fun _ =>
  pick (r_dq rest) fun _ =>
  pick (r_sq rest) fun _ =>
  pick (r_defOp rest) fun _ =>
  pick (r_lamArrow rest) fun _ =>
  pick (r_forArrow rest) fun _ =>
  pick (r_range rest) fun _ =>
  pick (r_assign rest) fun _ =>
  pick (r_cmp rest) fun _ =>
  pick (r_arith rest) fun _ =>
  pick (r_ternary rest) fun _ =>
  pick (r_punct rest) fun _ =>
  pick (r_super rest) fun _ =>
  pick (r_decorator rest) fun _ =>
  r_ident rest

/-- The `multiline-comment` state: nested `<#` pushes the same state again,
`#>` pops one level, runs without `<` or `#` are content, a stray `<` or `#`
is consumed as a single content character. -/
def matchMLC (rest : List Char) : Option MRes :=
  if ['<', '#'].isPrefixOf rest then some ⟨[(.commentMultiline, 2)], .pushSame⟩
  else if ['#', '>'].isPrefixOf rest then some ⟨[(.commentMultiline, 2)], .pop⟩
  else
    let n := cw (fun c => c != '<' && c != '#') rest
    if n ≠ 0 then some ⟨[(.commentMultiline, n)], .stay⟩
    else
      match rest with
      | c :: _ =>
        if c == '<' || c == '#' then some ⟨[(.commentMultiline, 1)], .stay⟩ else none
      | [] => none

/-- The `using-block` state: whitespace, `/`, namespace-name components,
`.`, `,`, and `}` which pops back to the enclosing state. -/
def matchUsing (rest : List Char) : Option MRes :=
  let n := cw isPySpace rest
  if n ≠ 0 then some ⟨[(.whitespace, n)], .stay⟩
  else
    match rest with
    | c :: t =>
      if c == '/' then some ⟨[(.punctuation, 1)], .stay⟩
      else if isIdentStartCh c then some ⟨[(.nameNamespace, 1 + cw isWordCh t)], .stay⟩
      else if c == '.' then some ⟨[(.punctuation, 1)], .stay⟩
      else if c == ',' then some ⟨[(.punctuation, 1)], .stay⟩
      else if c == rbc then some ⟨[(.punctuation, 1)], .pop⟩
      else none
    | [] => none

/-- The `string-double` state: `<#` enters the comment state, `{` pushes the
interpolation state, runs excluding `"`, backslash, `{`, `<` are content,
`"` pops.  No rule matches a lone backslash or a `<` not starting `<#`. -/
def matchSD (rest : List Char) : Option MRes :=
  if ['<', '#'].isPrefixOf rest then
    some ⟨[(.commentMultiline, 2)], .push .multilineComment⟩
  else if nthCh rest 0 == some lbc then some ⟨[(.stringInterpol, 1)], .push .interpolation⟩
  else
    let n := cw (fun c => c != dqc && c != bsc && c != lbc && c != '<') rest
    if n ≠ 0 then some ⟨[(Tok.stringDouble, n)], .stay⟩
    else if nthCh rest 0 == some dqc then some ⟨[(Tok.stringDouble, 1)], .pop⟩
    else none

/-- The `interpolation` state: `}` pops back to the string state; everything
else is handled by `include('root')`, i.e. the full root rule set. -/
def matchInterp (prev : Option Char) (rest : List Char) : Option MRes :=
  if nthCh rest 0 == some rbc then some ⟨[(.stringInterpol, 1)], .pop⟩
  else matchRoot prev rest

/-- Dispatch on the current lexical state. -/
def matchLState (st : LState) (prev : Option Char) (rest : List Char) : Option MRes :=
  match st with
  | .root => matchRoot prev rest
  | .multilineComment => matchMLC rest
  | .usingBlock => matchUsing rest
  | .stringDouble => matchSD rest
  | .interpolation => matchInterp prev rest

/-- Host-driver state transitions: `#pop` keeps at least one state on the
stack, `#push` duplicates the top, a named state is pushed. -/
def applyTrans (tr : STrans) (stack : List LState) : List LState :=
  match tr with
  | .stay => stack
  | .push s => s :: stack
  | .pushSame => stack.headD .root :: stack
  | .pop =>
    match stack with
    | _ :: t :: r => t :: r
    | l => l

/-- Slice the input into the emitted token spans; zero-length sub-spans are
dropped (empty `bygroups` groups yield nothing). -/
def cutPieces : List Char → List (Tok × Nat) → List (Tok × List Char)
  | _, [] => []
  | l, (t, n) :: ps => if n = 0 then cutPieces l ps else (t, l.take n) :: cutPieces (l.drop n) ps

/-- The host scanning loop (`RegexLexer.get_tokens_unprocessed`): repeatedly
match the current state's rules at the cursor; on a match emit the sliced
tokens, advance, and apply the state transition; when no rule matches, a
newline resets the stack to `[root]` and is emitted as whitespace, any other
character is emitted as a one-character `Error` token.  `fuel` bounds the
number of steps; every step consumes at least one character, so fuel equal to
the input length always suffices. -/
def runL : Nat → List LState → Option Char → List Char → List (Tok × List Char) × List LState
  | _, stack, _, [] => ([], stack)
  | 0, stack, _, _ :: _ => ([], stack)
  | fuel + 1, stack, prev, c :: cs =>
    match matchLState (stack.headD .root) prev (c :: cs) with
    | some res =>
      let n := pieceLen res.pieces
      let r := runL fuel (applyTrans res.trans stack) (((c :: cs).take n).getLast?)
                 ((c :: cs).drop n)
      (cutPieces (c :: cs) res.pieces ++ r.1, r.2)
    | none =>
      if c = '\n' then
        let r := runL fuel [.root] (some c) cs
        ((.whitespace, [c]) :: r.1, r.2)
      else
        let r := runL fuel stack (some c) cs
        ((.error, [c]) :: r.1, r.2)

/-- Run the lexer on a whole input from the initial stack `[root]`; returns
the emitted token stream and the final state stack (top first). -/
def lexVerse (input : List Char) : List (Tok × List Char) × List LState :=
  runL input.length [.root] none input

/-- Merge adjacent tokens of equal kind into one span (the "single span of a
given kind" view of a token stream, as a highlighter displays it). -/
def mergeTok : List (Tok × List Char) → List (Tok × List Char)
  | [] => []
  | (t, s) :: rest =>
    match mergeTok rest with
    | (t2, s2) :: r2 => if t = t2 then (t, s ++ s2) :: r2 else (t, s) :: (t2, s2) :: r2
    | [] => [(t, s)]

/-- The doubly nested comment input of claim C3. -/
def inputC3 : List Char := "<# outer <# inner #> still outer #>".toList

/-- The interpolated string input of claim C4: `"a{x}b"`. -/
def inputC4 : List Char := [dqc, 'a', lbc, 'x', rbc, 'b', dqc]

/-- The namespace-import input of claim C9: `using {a.b, c}`. -/
def inputC9 : List Char :=
  ['u', 's', 'i', 'n', 'g', ' ', lbc, 'a', '.', 'b', ',', ' ', 'c', rbc]

/-- The double-quoted input of claim C10: `"a\"b"`. -/
def inputC10d : List Char := [dqc, 'a', bsc, dqc, 'b', dqc]

/-- The single-quoted input of claim C10: `'a\'b'`. -/
def inputC10s : List Char := [sqc, 'a', bsc, sqc, 'b', sqc]

/-- Substring search: does `pat` occur (contiguously) anywhere in the list?
Embeds `re.search` on a regex that is a literal string. -/
def seqOccurs (pat : List Char) : List Char → Bool
  | [] => pat.isEmpty
  | c :: t => pat.isPrefixOf (c :: t) || seqOccurs pat t

/-- Search for a match of an anchored pattern at every position, threading the
previous character (for `\b`); embeds `re.search` for the non-literal
patterns of `analyse_text`. -/
def anySuffix (p : Option Char → List Char → Bool) : Option Char → List Char → Bool
  | prev, [] => p prev []
  | prev, c :: t => p prev (c :: t) || anySuffix p (some c) t

/-- Match of `\busing\s*\{.*\}` at one position: word boundary, `using`,
optional whitespace, `{`, then a `}` further on with no newline in between
(`.` does not match newlines here). -/
def usingSigAt (prev : Option Char) (rest : List Char) : Bool :=
  bdry prev rest && "using".toList.isPrefixOf rest &&
    (let t := rest.drop 5
     let n := cw isPySpace t
     nthCh t n == some lbc &&
       ((t.drop (n + 1)).takeWhile (fun c => c != '\n')).contains rbc)

/-- Signature 1 of `analyse_text`: `re.search(r'\busing\s*\{.*\}', text)`. -/
def sig_using (text : List Char) : Bool := anySuffix usingSigAt none text

/-- Signature 2 of `analyse_text`: `re.search(r':=', text)`. -/
def sig_defop (text : List Char) : Bool := seqOccurs [':', '='] text

/-- Signature 3 of `analyse_text`:
`re.search(r'<(public|private|override|suspends|decides)>', text)`. -/
def sig_spec (text : List Char) : Bool :=
  seqOccurs "<public>".toList text || seqOccurs "<private>".toList text ||
  seqOccurs "<override>".toList text || seqOccurs "<suspends>".toList text ||
  seqOccurs "<decides>".toList text

/-- Match of `\b(spawn|race|sync)\s*[:{]` at one position. -/
def spawnSigAt (prev : Option Char) (rest : List Char) : Bool :=
  bdry prev rest &&
    (["spawn".toList, "race".toList, "sync".toList].any fun w =>
      w.isPrefixOf rest &&
        (let u := rest.drop w.length
         let n := cw isPySpace u
         nthCh u n == some ':' || nthCh u n == some lbc))

/-- Signature 4 of `analyse_text`: `re.search(r'\b(spawn|race|sync)\s*[:{]', text)`. -/
def sig_spawn (text : List Char) : Bool := anySuffix spawnSigAt none text

/-- After a candidate `)`: `\s*:` must follow. -/
def afterParen (t : List Char) : Bool := nthCh t (cw isPySpace t) == some ':'

/-- Scan for `\)\s*:` reachable from the position after `class\s*\(` without
crossing a newline (the `.*` of the pattern cannot match newlines). -/
def classCloseScan : List Char → Bool
  | [] => false
  | c :: t => (c == ')' && afterParen t) || (c != '\n' && classCloseScan t)

/-- Match of `\bclass\s*\(.*\)\s*:` at one position. -/
def classSigAt (prev : Option Char) (rest : List Char) : Bool :=
  bdry prev rest && "class".toList.isPrefixOf rest &&
    (let u := rest.drop 5
     let n := cw isPySpace u
     nthCh u n == some '(' && classCloseScan (u.drop (n + 1)))

/-- Signature 5 of `analyse_text`: `re.search(r'\bclass\s*\(.*\)\s*:', text)`. -/
def sig_class (text : List Char) : Bool := anySuffix classSigAt none text

/-- Scan for `<#` followed (two characters later or further) by `#>`;
with `re.DOTALL` the `.*` in between may cross newlines. -/
def commentSigScan : List Char → Bool
  | [] => false
  | c :: t =>
    (c == '<' && nthCh t 0 == some '#' && seqOccurs ['#', '>'] (t.drop 1)) ||
    commentSigScan t

/-- Signature 6 of `analyse_text`: `re.search(r'<#.*#>', text, re.DOTALL)`. -/
def sig_comment (text : List Char) : Bool := commentSigScan text

/-- The heuristic scorer `VerseLexer.analyse_text`: starts at 0.0, adds a
fixed weight for each signature found anywhere in the text, and clamps the
sum at 1.0.  Weights are modelled as exact rationals. -/
def analyse_text (text : List Char) : ℚ :=
  let score : ℚ := 0
  let score := if sig_using text then score + 3 / 10 else score
  let score := if sig_defop text then score + 2 / 10 else score
  let score := if sig_spec text then score + 3 / 10 else score
  let score := if sig_spawn text then score + 2 / 10 else score
  let score := if sig_class text then score + 2 / 10 else score
  let score := if sig_comment text then score + 1 / 10 else score
  min score 1

/-- The text `using {a} x := 1`, containing both the namespace-import block
and the definition operator signatures and no others. -/
def c7_both : List Char :=
  ['u', 's', 'i', 'n', 'g', ' ', lbc, 'a', rbc, ' ', 'x', ' ', ':', '=', ' ', '1']

/-- The text `x:=1 <public> spawn: class(): <#a#>`, containing the definition
operator (but no namespace-import block) together with all four remaining
signatures. -/
def c7_rich : List Char :=
  ['x', ':', '=', '1', ' ', '<', 'p', 'u', 'b', 'l', 'i', 'c', '>', ' ',
   's', 'p', 'a', 'w', 'n', ':', ' ', 'c', 'l', 'a', 's', 's', '(', ')', ':', ' ',
   '<', '#', 'a', '#', '>']

/-- The text `x := 1`, containing only the definition-operator signature. -/
def c7_only : List Char := ['x', ' ', ':', '=', ' ', '1']

theorem pieceLen_nil : pieceLen [] = 0 := rfl

theorem pieceLen_cons (t : Tok) (n : Nat) (ps : List (Tok × Nat)) :
    pieceLen ((t, n) :: ps) = n + pieceLen ps := by
  simp [pieceLen]

theorem matchWords_pos {ws : List (List Char)} {rest : List Char} {n : Nat}
    (h1 : ∀ w ∈ ws, w ≠ []) (h : matchWords ws rest = some n) : 1 ≤ n := by
  obtain ⟨w, hw, hfw⟩ := List.exists_of_findSome?_eq_some h
  split at hfw
  · cases hfw
    have hne := h1 w hw
    have := List.length_pos.mpr hne
    omega
  · cases hfw

theorem r_ws_pos {rest : List Char} {r : MRes} (h : r_ws rest = some r) :
    1 ≤ pieceLen r.pieces := by
  unfold r_ws at h
  dsimp only at h
  split at h
  · simp at h
  · cases h; simp [pieceLen]; omega

theorem r_lineComment_pos {rest : List Char} {r : MRes} (h : r_lineComment rest = some r) :
    1 ≤ pieceLen r.pieces := by
  unfold r_lineComment at h
  split at h
  · cases h; simp [pieceLen]
  · cases h

theorem r_mlcOpen_pos {rest : List Char} {r : MRes} (h : r_mlcOpen rest = some r) :
    1 ≤ pieceLen r.pieces := by
  unfold r_mlcOpen at h
  split at h
  · cases h; simp [pieceLen]
  · cases h

theorem r_using_pos {rest : List Char} {r : MRes} (h : r_using rest = some r) :
    1 ≤ pieceLen r.pieces := by
  unfold r_using at h
  dsimp only at h
  split at h
  · split at h
    · cases h; simp [pieceLen]; omega
    · cases h
  · cases h

theorem r_specifier_pos {rest : List Char} {r : MRes} (h : r_specifier rest = some r) :
    1 ≤ pieceLen r.pieces := by
  unfold r_specifier at h
  split at h
  · obtain ⟨n, hn, hr⟩ := Option.map_eq_some'.mp h
    obtain ⟨w, hw, hfw⟩ := List.exists_of_findSome?_eq_some hn
    subst hr
    simp only [pieceLen, List.map_cons, List.map_nil, List.sum_cons, List.sum_nil]
    dsimp only at hfw
    split at hfw
    · split at hfw
      · cases hfw; omega
      · split at hfw
        · split at hfw
          · cases hfw; omega
          · cases hfw
        · cases hfw
    · cases hfw
  · cases h

theorem r_dataStructure_pos {prev : Option Char} {rest : List Char} {r : MRes}
    (h : r_dataStructure prev rest = some r) : 1 ≤ pieceLen r.pieces := by
  obtain ⟨w, hw, hfw⟩ := List.exists_of_findSome?_eq_some h
  dsimp only at hfw
  split at hfw
  · split at hfw
    · cases hfw
    · split at hfw
      · split at hfw
        · cases hfw; simp [pieceLen]; omega
        · cases hfw
      · cases hfw
  · cases hfw

theorem r_funcDecl_pos {prev : Option Char} {rest : List Char} {r : MRes}
    (h : r_funcDecl prev rest = some r) : 1 ≤ pieceLen r.pieces := by
  unfold r_funcDecl at h
  dsimp only at h
  split at h
  · split at h
    · split at h
      · split at h
        · split at h
          · cases h; simp [pieceLen]; omega
          · cases h
        · cases h
      · cases h; simp [pieceLen]; omega
      · cases h
    · cases h
  · cases h

theorem r_kwBlock_pos {rest : List Char} {r : MRes} (h : r_kwBlock rest = some r) :
    1 ≤ pieceLen r.pieces := by
  obtain ⟨n, hn, hr⟩ := Option.map_eq_some'.mp h
  subst hr
  have := matchWords_pos (by decide) hn
  simp [pieceLen]; omega

theorem r_kwData_pos {rest : List Char} {r : MRes} (h : r_kwData rest = some r) :
    1 ≤ pieceLen r.pieces := by
  obtain ⟨n, hn, hr⟩ := Option.map_eq_some'.mp h
  subst hr
  have := matchWords_pos (by decide) hn
  simp [pieceLen]; omega

theorem r_kwDecl_pos {rest : List Char} {r : MRes} (h : r_kwDecl rest = some r) :
    1 ≤ pieceLen r.pieces := by
  obtain ⟨n, hn, hr⟩ := Option.map_eq_some'.mp h
  subst hr
  have := matchWords_pos (by decide) hn
  simp [pieceLen]; omega

theorem r_kwType_pos {rest : List Char} {r : MRes} (h : r_kwType rest = some r) :
    1 ≤ pieceLen r.pieces := by
  obtain ⟨n, hn, hr⟩ := Option.map_eq_some'.mp h
  subst hr
  have := matchWords_pos (by decide) hn
  simp [pieceLen]; omega

theorem r_kwReserved_pos {rest : List Char} {r : MRes} (h : r_kwReserved rest = some r) :
    1 ≤ pieceLen r.pieces := by
  obtain ⟨n, hn, hr⟩ := Option.map_eq_some'.mp h
  subst hr
  have := matchWords_pos (by decide) hn
  simp [pieceLen]; omega

theorem r_kwLogical_pos {rest : List Char} {r : MRes} (h : r_kwLogical rest = some r) :
    1 ≤ pieceLen r.pieces := by
  obtain ⟨n, hn, hr⟩ := Option.map_eq_some'.mp h
  subst hr
  have := matchWords_pos (by decide) hn
  simp [pieceLen]; omega

theorem r_bool_pos {prev : Option Char} {rest : List Char} {r : MRes}
    (h : r_bool prev rest = some r) : 1 ≤ pieceLen r.pieces := by
  obtain ⟨n, hn, hr⟩ := Option.bind_eq_some.mp h
  have := matchWords_pos (by decide) hn
  split at hr
  · cases hr; simp [pieceLen]; omega
  · cases hr

theorem r_radix_pos {pre : Char} {p : Char → Bool} {kind : Tok} {rest : List Char} {r : MRes}
    (h : r_radix pre p kind rest = some r) : 1 ≤ pieceLen r.pieces := by
  unfold r_radix at h
  dsimp only at h
  split at h
  · split at h
    · split at h
      · cases h
      · cases h; simp [pieceLen]; omega
    · cases h
  · cases h

theorem r_bin_pos {rest : List Char} {r : MRes} (h : r_bin rest = some r) :
    1 ≤ pieceLen r.pieces := r_radix_pos h

theorem r_oct_pos {rest : List Char} {r : MRes} (h : r_oct rest = some r) :
    1 ≤ pieceLen r.pieces := r_radix_pos h

theorem r_hex_pos {rest : List Char} {r : MRes} (h : r_hex rest = some r) :
    1 ≤ pieceLen r.pieces := r_radix_pos h

theorem r_float1_pos {rest : List Char} {r : MRes} (h : r_float1 rest = some r) :
    1 ≤ pieceLen r.pieces := by
  unfold r_float1 at h
  dsimp only at h
  split at h
  · cases h
  · split at h
    · cases h; simp [pieceLen]; omega
    · cases h

theorem r_float2_pos {rest : List Char} {r : MRes} (h : r_float2 rest = some r) :
    1 ≤ pieceLen r.pieces := by
  unfold r_float2 at h
  dsimp only at h
  split at h
  · split at h
    · cases h
    · cases h; simp [pieceLen]; omega
  · cases h

theorem r_float3_pos {rest : List Char} {r : MRes} (h : r_float3 rest = some r) :
    1 ≤ pieceLen r.pieces := by
  unfold r_float3 at h
  dsimp only at h
  split at h
  · cases h
  · split at h
    · cases h
    · cases h; simp [pieceLen]; omega

theorem r_int_pos {rest : List Char} {r : MRes} (h : r_int rest = some r) :
    1 ≤ pieceLen r.pieces := by
  unfold r_int at h
  split at h
  · split at h
    · cases h; simp [pieceLen]
    · cases h
  · cases h

theorem r_dq_pos {rest : List Char} {r : MRes} (h : r_dq rest = some r) :
    1 ≤ pieceLen r.pieces := by
  unfold r_dq at h
  split at h
  · split at h
    · cases h; simp [pieceLen]
    · cases h
  · cases h

theorem r_sq_pos {rest : List Char} {r : MRes} (h : r_sq rest = some r) :
    1 ≤ pieceLen r.pieces := by
  unfold r_sq at h
  split at h
  · split at h
    · obtain ⟨n, _, hr⟩ := Option.map_eq_some'.mp h
      subst hr
      simp [pieceLen]
    · cases h
  · cases h

theorem r_lit2_pos {a b : Char} {rest : List Char} {r : MRes}
    (h : r_lit2 a b rest = some r) : 1 ≤ pieceLen r.pieces := by
  unfold r_lit2 at h
  split at h
  · split at h
    · cases h; simp [pieceLen]
    · cases h
  · cases h

theorem r_defOp_pos {rest : List Char} {r : MRes} (h : r_defOp rest = some r) :
    1 ≤ pieceLen r.pieces := r_lit2_pos h

theorem r_lamArrow_pos {rest : List Char} {r : MRes} (h : r_lamArrow rest = some r) :
    1 ≤ pieceLen r.pieces := r_lit2_pos h

theorem r_forArrow_pos {rest : List Char} {r : MRes} (h : r_forArrow rest = some r) :
    1 ≤ pieceLen r.pieces := r_lit2_pos h

theorem r_range_pos {rest : List Char} {r : MRes} (h : r_range rest = some r) :
    1 ≤ pieceLen r.pieces := r_lit2_pos h

theorem r_assign_pos {rest : List Char} {r : MRes} (h : r_assign rest = some r) :
    1 ≤ pieceLen r.pieces := by
  unfold r_assign at h
  split at h
  · split at h
    · cases h; simp [pieceLen]
    · split at h
      · cases h; simp [pieceLen]
      · cases h
  · cases h

theorem r_cmp_pos {rest : List Char} {r : MRes} (h : r_cmp rest = some r) :
    1 ≤ pieceLen r.pieces := by
  unfold r_cmp at h
  split at h
  · split at h
    · cases h; simp [pieceLen]
    · split at h
      · cases h; simp [pieceLen]
      · cases h
  · cases h

theorem r_arith_pos {rest : List Char} {r : MRes} (h : r_arith rest = some r) :
    1 ≤ pieceLen r.pieces := by
  unfold r_arith at h
  split at h
  · split at h
    · cases h; simp [pieceLen]
    · cases h
  · cases h

theorem r_ternary_pos {rest : List Char} {r : MRes} (h : r_ternary rest = some r) :
    1 ≤ pieceLen r.pieces := by
  unfold r_ternary at h
  split at h
  · split at h
    · cases h; simp [pieceLen]
    · cases h
  · cases h

theorem r_punct_pos {rest : List Char} {r : MRes} (h : r_punct rest = some r) :
    1 ≤ pieceLen r.pieces := by
  unfold r_punct at h
  split at h
  · split at h
    · cases h; simp [pieceLen]
    · cases h
  · cases h

theorem r_super_pos {rest : List Char} {r : MRes} (h : r_super rest = some r) :
    1 ≤ pieceLen r.pieces := by
  unfold r_super at h
  split at h
  · split at h
    · split at h
      · split at h
        · split at h
          · cases h; simp [pieceLen]
          · cases h
        · cases h
      · cases h
    · cases h
  · cases h

theorem r_decorator_pos {rest : List Char} {r : MRes} (h : r_decorator rest = some r) :
    1 ≤ pieceLen r.pieces := by
  unfold r_decorator at h
  split at h
  · split at h
    · split at h
      · split at h
        · cases h; simp [pieceLen]; omega
        · cases h
      · cases h
    · cases h
  · cases h

theorem r_ident_pos {rest : List Char} {r : MRes} (h : r_ident rest = some r) :
    1 ≤ pieceLen r.pieces := by
  unfold r_ident at h
  split at h
  · split at h
    · cases h; simp [pieceLen]
    · cases h
  · cases h

theorem pick_pos {a : Option MRes} {f : Unit → Option MRes}
    (ha : ∀ r, a = some r → 1 ≤ pieceLen r.pieces)
    (hf : ∀ r, f () = some r → 1 ≤ pieceLen r.pieces) :
    ∀ r, pick a f = some r → 1 ≤ pieceLen r.pieces := by
  intro r h
  cases a with
  | some x => exact ha r (by simpa [pick] using h)
  | none => exact hf r (by simpa [pick] using h)

theorem matchRoot_pos {prev : Option Char} {rest : List Char} :
    ∀ r, matchRoot prev rest = some r → 1 ≤ pieceLen r.pieces := by
  unfold matchRoot
  apply pick_pos (fun r h => r_ws_pos h)
  apply pick_pos (fun r h => r_lineComment_pos h)
  apply pick_pos (fun r h => r_mlcOpen_pos h)
  apply pick_pos (fun r h => r_using_pos h)
  apply pick_pos (fun r h => r_specifier_pos h)
  apply pick_pos (fun r h => r_dataStructure_pos h)
  apply pick_pos (fun r h => r_funcDecl_pos h)
  apply pick_pos (fun r h => r_kwBlock_pos h)
  apply pick_pos (fun r h => r_kwData_pos h)
  apply pick_pos (fun r h => r_kwDecl_pos h)
  apply pick_pos (fun r h => r_kwType_pos h)
  apply pick_pos (fun r h => r_kwReserved_pos h)
  apply pick_pos (fun r h => r_kwLogical_pos h)
  apply pick_pos (fun r h => r_bool_pos h)
  apply pick_pos (fun r h => r_bin_pos h)
  apply pick_pos (fun r h => r_oct_pos h)
  apply pick_pos (fun r h => r_hex_pos h)
  apply pick_pos (fun r h => r_float1_pos h)
  apply pick_pos (fun r h => r_float2_pos h)
  apply pick_pos (fun r h => r_float3_pos h)
  apply pick_pos (fun r h => r_int_pos h)
  apply pick_pos (fun r h => r_dq_pos h)
  apply pick_pos (fun r h => r_sq_pos h)
  apply pick_pos (fun r h => r_defOp_pos h)
  apply pick_pos (fun r h => r_lamArrow_pos h)
  apply pick_pos (fun r h => r_forArrow_pos h)
  apply pick_pos (fun r h => r_range_pos h)
  apply pick_pos (fun r h => r_assign_pos h)
  apply pick_pos (fun r h => r_cmp_pos h)
  apply pick_pos (fun r h => r_arith_pos h)
  apply pick_pos (fun r h => r_ternary_pos h)
  apply pick_pos (fun r h => r_punct_pos h)
  apply pick_pos (fun r h => r_super_pos h)
  apply pick_pos (fun r h => r_decorator_pos h)
  exact fun r h => r_ident_pos h

theorem matchMLC_pos {rest : List Char} {r : MRes} (h : matchMLC rest = some r) :
    1 ≤ pieceLen r.pieces := by
  unfold matchMLC at h
  dsimp only at h
  split at h
  · cases h; simp [pieceLen]
  · split at h
    · cases h; simp [pieceLen]
    · split at h
      · cases h; simp [pieceLen]; omega
      · split at h
        · split at h
          · cases h; simp [pieceLen]
          · cases h
        · cases h

theorem matchUsing_pos {rest : List Char} {r : MRes} (h : matchUsing rest = some r) :
    1 ≤ pieceLen r.pieces := by
  unfold matchUsing at h
  dsimp only at h
  split at h
  · cases h; simp [pieceLen]; omega
  · split at h
    · split at h
      · cases h; simp [pieceLen]
      · split at h
        · cases h; simp [pieceLen]
        · split at h
          · cases h; simp [pieceLen]
          · split at h
            · cases h; simp [pieceLen]
            · split at h
              · cases h; simp [pieceLen]
              · cases h
    · cases h

theorem matchSD_pos {rest : List Char} {r : MRes} (h : matchSD rest = some r) :
    1 ≤ pieceLen r.pieces := by
  unfold matchSD at h
  dsimp only at h
  split at h
  · cases h; simp [pieceLen]
  · split at h
    · cases h; simp [pieceLen]
    · split at h
      · cases h; simp [pieceLen]; omega
      · split at h
        · cases h; simp [pieceLen]
        · cases h

theorem matchInterp_pos {prev : Option Char} {rest : List Char} {r : MRes}
    (h : matchInterp prev rest = some r) : 1 ≤ pieceLen r.pieces := by
  unfold matchInterp at h
  split at h
  · cases h; simp [pieceLen]
  · exact matchRoot_pos r h

theorem matchLState_pos {st : LState} {prev : Option Char} {rest : List Char} {r : MRes}
    (h : matchLState st prev rest = some r) : 1 ≤ pieceLen r.pieces := by
  cases st with
  | root => exact matchRoot_pos r h
  | multilineComment => exact matchMLC_pos h
  | usingBlock => exact matchUsing_pos h
  | stringDouble => exact matchSD_pos h
  | interpolation => exact matchInterp_pos h

theorem cutPieces_flatten (ps : List (Tok × Nat)) :
    ∀ l : List Char, ((cutPieces l ps).map Prod.snd).flatten = l.take (pieceLen ps) := by
  induction ps with
  | nil => intro l; simp [cutPieces, pieceLen]
  | cons p ps ih =>
    intro l
    obtain ⟨t, n⟩ := p
    by_cases hn : n = 0
    · subst hn
      simp [cutPieces, pieceLen_cons, ih l]
    · simp only [cutPieces, hn, if_false, List.map_cons, List.flatten_cons, ih (l.drop n),
        pieceLen_cons, List.take_add]

theorem runL_flatten (fuel : Nat) :
    ∀ (stack : List LState) (prev : Option Char) (rest : List Char),
      rest.length ≤ fuel → (((runL fuel stack prev rest).1.map Prod.snd).flatten = rest) := by
  induction fuel with
  | zero =>
    intro stack prev rest h
    cases rest with
    | nil => simp [runL]
    | cons c cs => simp at h
  | succ fuel ih =>
    intro stack prev rest h
    cases rest with
    | nil => simp [runL]
    | cons c cs =>
      rw [runL]
      cases hm : matchLState (stack.headD .root) prev (c :: cs) with
      | some res =>
        have hpos : 1 ≤ pieceLen res.pieces := matchLState_pos hm
        have hlen : ((c :: cs).drop (pieceLen res.pieces)).length ≤ fuel := by
          simp only [List.length_drop, List.length_cons]
          simp only [List.length_cons] at h
          omega
        simp only [List.map_append, List.flatten_append, cutPieces_flatten,
          ih _ _ _ hlen, List.take_append_drop]
      | none =>
        by_cases hc : c = '\n'
        · subst hc
          have hlen : cs.length ≤ fuel := by simp at h; omega
          simp [ih _ _ _ hlen]
        · have hlen : cs.length ≤ fuel := by simp at h; omega
          simp [hc, ih _ _ _ hlen]

/-- Claim C1: for every input text, concatenating the text spans of all tokens
emitted by the lexer, in emission order, reproduces the original text exactly:
no character is dropped, duplicated, or reordered, and every character of the
input is covered by exactly one token span. -/
theorem claim_C1 (input : List Char) :
    ((lexVerse input).1.map Prod.snd).flatten = input :=
  runL_flatten input.length [.root] none input (Nat.le_refl _)

/-- Claim C2 as stated is false: because the assignment rule `[+\-*/]?=` is
listed before the comparison rule, a lone `=` matches it, so the input `==`
is emitted as two one-character `Operator` tokens, not one two-character
`Operator` token. -/
theorem cex_C2 :
    (lexVerse ['=', '=']).1 = [(Tok.operator, ['=']), (Tok.operator, ['='])] ∧
    (lexVerse ['=', '=']).1 ≠ [(Tok.operator, ['=', '='])] := by decide

/-- Claim C2, amended: whenever `!=`, `<=` or `>=` occurs at the cursor in the
root state the lexer emits one single two-character `Operator` token; but `==`
is pre-empted by the assignment rule `[+\-*/]?=`, which emits a one-character
`=` `Operator` token, so `==` lexes as two one-character `Operator` tokens. -/
theorem claim_C2 :
    (∀ (prev : Option Char) (t : List Char),
      matchRoot prev ('!' :: '=' :: t) = some ⟨[(.operator, 2)], .stay⟩) ∧
    (∀ (prev : Option Char) (t : List Char),
      matchRoot prev ('<' :: '=' :: t) = some ⟨[(.operator, 2)], .stay⟩) ∧
    (∀ (prev : Option Char) (t : List Char),
      matchRoot prev ('>' :: '=' :: t) = some ⟨[(.operator, 2)], .stay⟩) ∧
    (∀ (prev : Option Char) (t : List Char),
      matchRoot prev ('=' :: '=' :: t) = some ⟨[(.operator, 1)], .stay⟩) ∧
    (lexVerse ['=', '=']).1 = [(Tok.operator, ['=']), (Tok.operator, ['='])] :=
  ⟨fun _ _ => rfl, fun _ _ => rfl, fun _ _ => rfl, fun _ _ => rfl, by decide⟩

/-- Claim C3: lexing `<# outer <# inner #> still outer #>` from the root state
classifies the entire text as the multiline-comment kind — every emitted token
has kind `Comment.Multiline`, merging adjacent equal-kind tokens yields a
single multiline-comment span covering the whole text — and the inner `<#`
pushes the comment state again, `#>` pops one level, so the state stack
returns exactly to its pre-comment depth (`[root]`) at the final `#>`. -/
theorem claim_C3 :
    (∀ tk ∈ (lexVerse inputC3).1, tk.1 = Tok.commentMultiline) ∧
    mergeTok (lexVerse inputC3).1 = [(Tok.commentMultiline, inputC3)] ∧
    (lexVerse inputC3).2 = [LState.root] := by decide

/-- Claim C4: lexing `"a{x}b"` from the root state yields exactly
string-open, string-content `a`, interpolation-open, identifier `x` (a full
identifier via the root rules, not string content), interpolation-close,
string-content `b`, string-close, ending with the stack back at `[root]`. -/
theorem claim_C4 :
    lexVerse inputC4 =
      ([(Tok.stringDouble, [dqc]), (Tok.stringDouble, ['a']), (Tok.stringInterpol, [lbc]),
        (Tok.name, ['x']), (Tok.stringInterpol, [rbc]), (Tok.stringDouble, ['b']),
        (Tok.stringDouble, [dqc])], [LState.root]) := by decide

/-- Claim C5 as stated is false: the function-declaration rule does consume
the `(` — on input `f(` the rule matches and its consumed span has length 2,
covering the `(`, not length 1. -/
theorem cex_C5 :
    r_funcDecl none ['f', '('] =
      some ⟨[(Tok.nameFunction, 1), (Tok.whitespace, 0), (Tok.punctuation, 1)], .stay⟩ ∧
    pieceLen [(Tok.nameFunction, 1), (Tok.whitespace, 0), (Tok.punctuation, 1)] = 2 ∧
    (2 : Nat) ≠ 1 := by decide

/-- Claim C5, amended: the function-declaration rule classifies the identifier
as a function-name token and the optional generic parameters as a
decorator-kind span, and it does consume the `(` itself — but emits it as a
`Punctuation` token (the same kind the punctuation rules would assign), as
the last sub-span of the match, with no state transition. -/
theorem claim_C5 (prev : Option Char) (rest : List Char) (res : MRes)
    (h : r_funcDecl prev rest = some res) :
    res.trans = STrans.stay ∧
    ∃ i w1, 1 ≤ i ∧
      (res.pieces = [(Tok.nameFunction, i), (Tok.whitespace, w1), (Tok.punctuation, 1)] ∨
       ∃ g w2, res.pieces = [(Tok.nameFunction, i), (Tok.whitespace, w1),
         (Tok.nameDecorator, g), (Tok.whitespace, w2), (Tok.punctuation, 1)]) := by
  unfold r_funcDecl at h
  dsimp only at h
  split at h
  · split at h
    · split at h
      · split at h
        · split at h
          · cases h
            exact ⟨rfl, _, _, by omega, Or.inr ⟨_, _, rfl⟩⟩
          · cases h
        · cases h
      · cases h
        exact ⟨rfl, _, _, by omega, Or.inl rfl⟩
      · cases h
    · cases h
  · cases h

theorem wit_C5 :
    (⟨[(Tok.nameFunction, 1), (Tok.whitespace, 0), (Tok.nameDecorator, 3),
       (Tok.whitespace, 0), (Tok.punctuation, 1)], .stay⟩ : MRes).trans = STrans.stay ∧
    ∃ i w1, 1 ≤ i ∧
      ((⟨[(Tok.nameFunction, 1), (Tok.whitespace, 0), (Tok.nameDecorator, 3),
          (Tok.whitespace, 0), (Tok.punctuation, 1)], .stay⟩ : MRes).pieces =
         [(Tok.nameFunction, i), (Tok.whitespace, w1), (Tok.punctuation, 1)] ∨
       ∃ g w2, (⟨[(Tok.nameFunction, 1), (Tok.whitespace, 0), (Tok.nameDecorator, 3),
          (Tok.whitespace, 0), (Tok.punctuation, 1)], .stay⟩ : MRes).pieces =
         [(Tok.nameFunction, i), (Tok.whitespace, w1),
          (Tok.nameDecorator, g), (Tok.whitespace, w2), (Tok.punctuation, 1)]) :=
  claim_C5 none "f<T>(".toList _ (by decide)

/-- Claim C8: `0x1A` lexes as one single hexadecimal-integer token (never
integer `0` then identifier `x1A`); `3.14` as one float token; `42` as one
integer token; `1e10` as one float token; `3.` as one float token whose span
is the whole input including the trailing dot (empty fractional part). -/
theorem claim_C8 :
    lexVerse "0x1A".toList = ([(Tok.numberHex, "0x1A".toList)], [LState.root]) ∧
    lexVerse "3.14".toList = ([(Tok.numberFloat, "3.14".toList)], [LState.root]) ∧
    lexVerse "42".toList = ([(Tok.numberInteger, "42".toList)], [LState.root]) ∧
    lexVerse "1e10".toList = ([(Tok.numberFloat, "1e10".toList)], [LState.root]) ∧
    lexVerse "3.".toList = ([(Tok.numberFloat, "3.".toList)], [LState.root]) := by decide

/-- Claim C9: `using {a.b, c}` lexes as namespace-keyword `using`, whitespace,
punctuation `{`, namespace-name `a`, punctuation `.`, namespace-name `b`,
punctuation `,`, whitespace, namespace-name `c`, punctuation `}`, with the `}`
popping the namespace-import-list state back to the enclosing state
(the final stack is `[root]` again). -/
theorem claim_C9 :
    lexVerse inputC9 =
      ([(Tok.keywordNamespace, "using".toList), (Tok.whitespace, [' ']),
        (Tok.punctuation, [lbc]), (Tok.nameNamespace, ['a']), (Tok.punctuation, ['.']),
        (Tok.nameNamespace, ['b']), (Tok.punctuation, [',']), (Tok.whitespace, [' ']),
        (Tok.nameNamespace, ['c']), (Tok.punctuation, [rbc])], [LState.root]) := by decide

/-- Claim C10: inside the double-quoted-string state no rule matches a
backslash, nor a `<` that does not begin `<#` (including a `<` at end of
input); such characters fall to the host's single-character fallback, emitted
as one-character `Error` tokens.  Hence backslash escapes are not supported in
double-quoted strings: in `"a\"b"` the quote after the backslash closes the
string (the backslash itself is an `Error` token and the final quote reopens a
string, leaving the string state on the stack).  Single-quoted strings do
support backslash escapes: `'a\'b'` is one single `String.Single` token. -/
theorem claim_C10 :
    (∀ t : List Char, matchSD (bsc :: t) = none) ∧
    (∀ (c : Char) (t : List Char), c ≠ '#' → matchSD ('<' :: c :: t) = none) ∧
    matchSD ['<'] = none ∧
    lexVerse inputC10d =
      ([(Tok.stringDouble, [dqc]), (Tok.stringDouble, ['a']), (Tok.error, [bsc]),
        (Tok.stringDouble, [dqc]), (Tok.name, ['b']), (Tok.stringDouble, [dqc])],
       [LState.stringDouble, LState.root]) ∧
    lexVerse inputC10s = ([(Tok.stringSingle, inputC10s)], [LState.root]) := by
  refine ⟨fun t => rfl, ?_, by decide, by decide, by decide⟩
  intro c t hc
  unfold matchSD
  have hb : ('#' == c) = false := by
    simp only [beq_eq_false_iff_ne, ne_eq]
    exact fun he => hc he.symm
  simp [List.isPrefixOf, cw, List.takeWhile, hb, dqc, bsc, lbc, nthCh]

theorem wit_C10 : matchSD ['<', 'x'] = none := claim_C10.2.1 'x' [] (by decide)

/-- Claim C6: `analyse_text` is a deterministic pure function of the text; its
result equals the sum of the fixed weights of the six independently tested
signatures (+0.3 namespace-import block, +0.2 definition operator, +0.3
specifier in angle brackets, +0.2 concurrency keyword then `:` or `{`, +0.2
class declaration with parameter list and `:`, +0.1 block comment delimiter
pair), clamped at 1.0; and the score always lies in [0.0, 1.0]. -/
theorem claim_C6 (text : List Char) :
    analyse_text text =
      min ((if sig_using text then (3 : ℚ) / 10 else 0) +
           (if sig_defop text then (2 : ℚ) / 10 else 0) +
           (if sig_spec text then (3 : ℚ) / 10 else 0) +
           (if sig_spawn text then (2 : ℚ) / 10 else 0) +
           (if sig_class text then (2 : ℚ) / 10 else 0) +
           (if sig_comment text then (1 : ℚ) / 10 else 0)) 1 ∧
    0 ≤ analyse_text text ∧ analyse_text text ≤ 1 ∧
    (∀ text2 : List Char, text2 = text → analyse_text text2 = analyse_text text) := by
  refine ⟨?_, ?_, ?_, fun text2 ht => ht ▸ rfl⟩ <;>
    · unfold analyse_text
      cases hu : sig_using text <;> cases hd : sig_defop text <;>
        cases hs : sig_spec text <;> cases hw : sig_spawn text <;>
        cases hc : sig_class text <;> cases hm : sig_comment text <;>
        simp only [hu, hd, hs, hw, hc, hm, if_true, if_false, Bool.false_eq_true,
          eq_self_iff_true] <;>
        norm_num [min_def]

theorem wit_C6 : analyse_text ([] : List Char) = analyse_text [] :=
  (claim_C6 []).2.2.2 [] rfl

/-- Claim C7 as stated is false: a text containing only the definition
operator among the two named signatures can trigger the four other signatures
and score 1.0, beating a text that has both named signatures but nothing else
(score 0.5). -/
theorem cex_C7 :
    sig_using c7_both = true ∧ sig_defop c7_both = true ∧
    sig_defop c7_rich = true ∧ sig_using c7_rich = false ∧
    analyse_text c7_both < analyse_text c7_rich := by
  refine ⟨by decide, by decide, by decide, by decide, ?_⟩
  have b1 : sig_using c7_both = true := by decide
  have b2 : sig_defop c7_both = true := by decide
  have b3 : sig_spec c7_both = false := by decide
  have b4 : sig_spawn c7_both = false := by decide
  have b5 : sig_class c7_both = false := by decide
  have b6 : sig_comment c7_both = false := by decide
  have r1 : sig_using c7_rich = false := by decide
  have r2 : sig_defop c7_rich = true := by decide
  have r3 : sig_spec c7_rich = true := by decide
  have r4 : sig_spawn c7_rich = true := by decide
  have r5 : sig_class c7_rich = true := by decide
  have r6 : sig_comment c7_rich = true := by decide
  unfold analyse_text
  simp only [b1, b2, b3, b4, b5, b6, r1, r2, r3, r4, r5, r6, if_true, if_false,
    Bool.false_eq_true, eq_self_iff_true]
  norm_num [min_def]

/-- Claim C7, amended: if the first text contains both the definition operator
and a namespace-import block, and the second contains exactly one of those two
signatures and none of the four other scoring signatures, then the first text
scores at least as high as the second. -/
theorem claim_C7 (t1 t2 : List Char)
    (h1u : sig_using t1 = true) (h1d : sig_defop t1 = true)
    (h2 : sig_using t2 = true ∧ sig_defop t2 = false ∨
          sig_using t2 = false ∧ sig_defop t2 = true)
    (h2s : sig_spec t2 = false) (h2w : sig_spawn t2 = false)
    (h2c : sig_class t2 = false) (h2m : sig_comment t2 = false) :
    analyse_text t2 ≤ analyse_text t1 := by
  unfold analyse_text
  rcases h2 with ⟨hu, hd⟩ | ⟨hu, hd⟩ <;>
    simp only [h1u, h1d, hu, hd, h2s, h2w, h2c, h2m, if_true, if_false,
      Bool.false_eq_true, Bool.true_eq_false] <;>
    split_ifs <;> norm_num [min_def]

theorem wit_C7 : analyse_text c7_only ≤ analyse_text c7_both :=
  claim_C7 c7_both c7_only (by decide) (by decide) (by decide)
    (by decide) (by decide) (by decide) (by decide)
